import Mathlib

/-!
Shallow embedding of the js-utils helper library.

The repository contains four copies of the library: `src/utils.js` and three
variants inside `src/unnamed/part_000` (separated by document markers).
Where the copies differ, the embeddings live in namespaces `UtilsJs`, `V2`
and `V3`; where all cited copies agree, the embedding is a top-level
definition.

JavaScript numbers are modelled as rationals: every arithmetic operation the
claims exercise (addition, subtraction, multiplication, floor, integer
powers) is exact at the inputs the claims quantify over.  `Math.random()`
draws are oracle parameters ranging over `[0,1)`.  An out-of-bounds array
read, which yields `undefined` in JavaScript, is modelled as `Option.none`.
-/

/-- JavaScript array read `l[i]` with an integer index: the element when
`0 ≤ i < l.length`, and `undefined` (`none`) otherwise. -/
def jsGetInt {α : Type} (l : List α) (i : ℤ) : Option α :=
  if 0 ≤ i then l.get? i.toNat else none

/-- JavaScript array read `l[q]` with a numeric index: the element when `q`
is an integer with `0 ≤ q < l.length`, and `undefined` (`none`) otherwise
(a fractional or negative index reads a missing property). -/
def jsGetNum {α : Type} (l : List α) (q : ℚ) : Option α :=
  if q.den = 1 ∧ 0 ≤ q.num then l.get? q.num.toNat else none

namespace UtilsJs

/-- `src/utils.js` lines 1-5.
`random(a, b)`: dispatch on which arguments are `undefined` (`none`).
With both arguments missing it recurses as `random(0, 1)`; with one as
`random(0, a)`; with both present it returns `Math.random() * (b - a) + a`.
When only `a` is `undefined` no branch fires and the function returns
`undefined`.  `r` is the `Math.random()` draw. -/
def random (r : ℚ) : Option ℚ → Option ℚ → Option ℚ
  | none, none => random r (some 0) (some 1)
  | some a, none => random r (some 0) (some a)
  | some a, some b => some (r * (b - a) + a)
  | none, some _ => none
termination_by a b => (if a = none then 1 else 0) + (if b = none then 1 else 0)

/-- `src/utils.js` lines 7-11.
`random_int(a, b)`: same dispatch; the two-argument case returns
`Math.floor(Math.random() * (b - a)) + a`. -/
def random_int (r : ℚ) : Option ℚ → Option ℚ → Option ℚ
  | none, none => random_int r (some 0) (some 1)
  | some a, none => random_int r (some 0) (some a)
  | some a, some b => some ((⌊r * (b - a)⌋ : ℚ) + a)
  | none, some _ => none
termination_by a b => (if a = none then 1 else 0) + (if b = none then 1 else 0)

/-- `src/utils.js` lines 17-19.
`random_from_array(arr)` returns `arr[random_int(arr.length - 1)]`. -/
def random_from_array {α : Type} (r : ℚ) (l : List α) : Option α :=
  match random_int r (some ((l.length : ℚ) - 1)) none with
  | some q => jsGetNum l q
  | none => none

end UtilsJs

namespace V3

/-- `src/unnamed/part_000` lines 607-617.
`random(a = null, b = null)`: with both `null`, the bounds become `0` and
`1`; with `b` `null`, they become `0` and `a`; then
`Math.random() * (b - a) + a`.  When only `a` is `null`, JavaScript
arithmetic coerces `null` to `0`, so the result is `r * (b - 0) + 0`. -/
def random (r : ℚ) : Option ℚ → Option ℚ → ℚ
  | none, none => r * (1 - 0) + 0
  | some a, none => r * (a - 0) + 0
  | some a, some b => r * (b - a) + a
  | none, some b => r * (b - 0) + 0

/-- `src/unnamed/part_000` lines 689-691 (identical at lines 320-322).
`random_from_array(a)` returns `a[Math.floor(Math.random() * a.length)]`. -/
def random_from_array {α : Type} (r : ℚ) (l : List α) : Option α :=
  jsGetInt l ⌊r * (l.length : ℚ)⌋

/-- `src/unnamed/part_000` lines 698-702.
`shuffle_array(a)` evaluates `a.map(...).sort(...).map(...)`: the chain
builds a fresh array and its value is discarded; no element of the argument
array is ever written.  The effect of the call on the argument array is
therefore the identity, which this state-transformer embedding records. -/
def shuffle_array {α : Type} (_draws : ℕ → ℚ) (l : List α) : List α :=
  l

/-- `src/unnamed/part_000` lines 906-913 (identical at lines 543-549).
`shuffle_string(string)` splits the string, pairs each character with a
`Math.random()` key, sorts ascending by key, and joins the characters back.
`draws i` is the key drawn for the character at position `i`. -/
def shuffle_string (draws : ℕ → ℚ) (s : List Char) : List Char :=
  ((s.enum.map (fun p => (p.2, draws p.1))).mergeSort
    (fun p q => p.2 ≤ q.2)).map (fun p => p.1)

/-- `src/unnamed/part_000` lines 946-948.
`poly_ease_in(x, n = 2)` returns `x ** n`. -/
def poly_ease_in (x : ℚ) (n : ℕ := 2) : ℚ :=
  x ^ n

/-- `src/unnamed/part_000` lines 957-959.
`poly_ease_out(x, n = 2)` returns `1 - (1 - x) ** n`. -/
def poly_ease_out (x : ℚ) (n : ℕ := 2) : ℚ :=
  1 - (1 - x) ^ n

end V3

namespace V2

/-- `src/unnamed/part_000` lines 584-586.
`poly_ease_in(x, n)` returns `Math.pow(2, n - 1) * Math.pow(x, n)`.
The degree is embedded as a natural number; for the degrees `n ≥ 1` the
specification discusses, `2 ^ (n - 1)` with truncated subtraction agrees
with the JavaScript real-valued power. -/
def poly_ease_in (x : ℚ) (n : ℕ) : ℚ :=
  2 ^ (n - 1) * x ^ n

/-- `src/unnamed/part_000` lines 595-597.
`poly_ease_out(x, n)` returns `1 - Math.pow(-2 * x + 2, n) / 2`. -/
def poly_ease_out (x : ℚ) (n : ℕ) : ℚ :=
  1 - (-2 * x + 2) ^ n / 2

end V2

/-- A record for the `{ x: x, y: y }` object literal. -/
structure XY where
  x : ℕ
  y : ℕ
deriving DecidableEq, Repr

/-- `src/unnamed/part_000` lines 832-836 (identical logic in
`src/utils.js` lines 80-84).  `xy_from_index(i, width)` returns
`{ x: i % width, y: Math.floor(i / width) }`; on the natural-number
indices the claim quantifies over, `%` and floored division are `Nat.mod`
and `Nat.div`. -/
def xy_from_index (i width : ℕ) : XY :=
  { x := i % width, y := i / width }

/-- `src/unnamed/part_000` lines 850-852 (identical in `src/utils.js`
lines 86-88).  `index_from_xy(x, y, width)` returns `x + width * y`. -/
def index_from_xy (x y width : ℕ) : ℕ :=
  x + width * y

/-- `src/unnamed/part_000` lines 661-681 (identical in `src/utils.js`
lines 21-41).  `random_normal(min, max, skew)` draws a Box-Muller value
`g = sqrt(-2 ln u) * cos(2 pi v)`, normalizes it to `num = g / 10 + 0.5`,
resamples recursively while `num` lies outside `[0, 1]`, then returns
`Math.pow(num, skew) * (max - min) + min`.

The transcendental Box-Muller kernel is an oracle: `gs i` is the value of
`g` produced by the `i`-th sampling round.  `skew` is embedded as an
integer exponent (`Math.pow` agrees with `zpow` there, including
`Math.pow(x, 0) = 1`).  The unbounded resampling recursion is paced by a
fuel argument; `none` models a run whose rounds all miss `[0, 1]`. -/
def random_normal (minv maxv : ℚ) (skew : ℤ) (gs : ℕ → ℚ) : ℕ → ℕ → Option ℚ
  | _, 0 => none
  | i, fuel + 1 =>
    let num := gs i / 10 + 1 / 2
    if 1 < num ∨ num < 0 then random_normal minv maxv skew gs (i + 1) fuel
    else some (num ^ skew * (maxv - minv) + minv)

/-- The swap `[a[i], a[j]] = [a[j], a[i]]` on the list model: both reads,
then both writes.  When either index is out of bounds the JavaScript code
would corrupt the array with `undefined`; that situation is unreachable
for the `Math.random()`-derived indices of the shuffle, and the embedding
leaves the list unchanged there. -/
def swapL {α : Type} (l : List α) (i j : ℕ) : List α :=
  match l[i]?, l[j]? with
  | some a, some b => (l.set i b).set j a
  | _, _ => l

namespace UtilsJs

/-- The loop of `shuffle_array`, counting the loop variable down: at index
`i ≥ 1` it swaps `a[i]` with `a[j]` for `j = Math.floor(draws i * (i + 1))`
and continues with `i - 1`; it stops once `i = 0`. -/
def shuffleLoop {α : Type} (draws : ℕ → ℚ) : ℕ → List α → List α
  | 0, l => l
  | i + 1, l =>
    shuffleLoop draws i (swapL l (i + 1) (⌊draws (i + 1) * ((i : ℚ) + 1 + 1)⌋).toNat)

/-- `src/utils.js` lines 43-48 (identical in `src/unnamed/part_000` lines
89-94).  `shuffle_array(arr)`: a Fisher-Yates pass from
`i = arr.length - 1` down to `i = 1`, swapping `arr[i]` with a uniformly
drawn `arr[j]`, `j = Math.floor(Math.random() * (i + 1))`.
`draws i` is the `Math.random()` value drawn at loop index `i`. -/
def shuffle_array {α : Type} (draws : ℕ → ℚ) (l : List α) : List α :=
  shuffleLoop draws (l.length - 1) l

end UtilsJs

/-- `while (value > max_val) value -= max_val - min_val;` of `wrap`.
The loop terminates because each pass lowers the value by the positive
width `w`. -/
def wrapSub (maxv w : ℚ) (hw : 0 < w) (v : ℚ) : ℚ :=
  if maxv < v then wrapSub maxv w hw (v - w) else v
termination_by (⌈(v - maxv) / w⌉).toNat
decreasing_by
  rename_i hv
  have ht : 0 < (v - maxv) / w := div_pos (by linarith) hw
  have h1 : (v - w - maxv) / w = (v - maxv) / w - 1 := by
    rw [show v - w - maxv = v - maxv - w by ring, sub_div, div_self (ne_of_gt hw)]
  have h2 : (1 : ℤ) ≤ ⌈(v - maxv) / w⌉ := Int.ceil_pos.mpr ht
  have h3 : ⌈(v - w - maxv) / w⌉ = ⌈(v - maxv) / w⌉ - 1 := by
    rw [h1, show (1 : ℚ) = ((1 : ℤ) : ℚ) by norm_num, Int.ceil_sub_int]
  simp only [h3]
  omega

/-- `while (value < min_val) value += max_val - min_val;` of `wrap`. -/
def wrapAdd (minv w : ℚ) (hw : 0 < w) (v : ℚ) : ℚ :=
  if v < minv then wrapAdd minv w hw (v + w) else v
termination_by (⌈(minv - v) / w⌉).toNat
decreasing_by
  rename_i hv
  have ht : 0 < (minv - v) / w := div_pos (by linarith) hw
  have h1 : (minv - (v + w)) / w = (minv - v) / w - 1 := by
    rw [show minv - (v + w) = minv - v - w by ring, sub_div, div_self (ne_of_gt hw)]
  have h2 : (1 : ℤ) ≤ ⌈(minv - v) / w⌉ := Int.ceil_pos.mpr ht
  have h3 : ⌈(minv - (v + w)) / w⌉ = ⌈(minv - v) / w⌉ - 1 := by
    rw [h1, show (1 : ℚ) = ((1 : ℤ) : ℚ) by norm_num, Int.ceil_sub_int]
  simp only [h3]
  omega

/-- `src/utils.js` lines 66-70 (identical in `src/unnamed/part_000` lines
152-156 and 775-779).  `wrap(value, min_val, max_val)` runs the two
compensating loops and returns the folded value.  The hypothesis
`minv < maxv` is the interval-shape assumption under which the source
loops terminate. -/
def wrap (v minv maxv : ℚ) (h : minv < maxv) : ℚ :=
  wrapAdd minv (maxv - minv) (sub_pos.mpr h) (wrapSub maxv (maxv - minv) (sub_pos.mpr h) v)

/-- The JavaScript hexdigit characters `0-9a-f` produced by
`Number.prototype.toString(16)`. -/
def hexDigitChar (d : ℕ) : Char :=
  if d < 10 then Char.ofNat (48 + d) else Char.ofNat (87 + d)

/-- The digit list of `dec.toString(16)` for a nonnegative integer: the
usual most-significant-first base-16 expansion, lowercase, with a single
digit for values below 16. -/
def toHexDigits (n : ℕ) : List Char :=
  if n < 16 then [hexDigitChar n]
  else toHexDigits (n / 16) ++ [hexDigitChar (n % 16)]
termination_by n
decreasing_by
  exact Nat.div_lt_self (by omega) (by norm_num)

/-- `src/unnamed/part_000` lines 875-880 (identical at lines 512-517).
`dec_to_hex(dec, padding = 0, prefix = false, round = true)`:
`Math.floor` the input (the identity on the nonnegative integers the
claim quantifies over, so the embedding takes `ℕ`), convert with
`toString(16)`, `padStart(padding, "0")`, uppercase, and optionally
prepend `"0x"`.  Strings are modelled as character lists. -/
def dec_to_hex (dec : ℕ) (padding : ℕ := 0) (pfx : Bool := false) : List Char :=
  let core := (toHexDigits dec).map Char.toUpper
  let padded := List.replicate (padding - core.length) '0' ++ core
  if pfx then '0' :: 'x' :: padded else padded

/-- The value of one hexadecimal digit accepted by `parseInt(s, 16)`:
`0-9`, `a-f` or `A-F`. -/
def parseHexDigit (c : Char) : Option ℕ :=
  if '0' ≤ c ∧ c ≤ '9' then some (c.toNat - 48)
  else if 'a' ≤ c ∧ c ≤ 'f' then some (c.toNat - 87)
  else if 'A' ≤ c ∧ c ≤ 'F' then some (c.toNat - 55)
  else none

/-- `parseInt(s, 16)` strips one leading `0x` or `0X`. -/
def strip0x (s : List Char) : List Char :=
  if s.take 2 = ['0', 'x'] ∨ s.take 2 = ['0', 'X'] then s.drop 2 else s

/-- The digit-consuming core of `parseInt(s, 16)`: read the longest prefix
of hexadecimal digits ignoring everything after it, `NaN` (`none`) when
that prefix is empty, otherwise the accumulated value. -/
def parseHexNat (s : List Char) : Option ℕ :=
  if (s.takeWhile fun c => (parseHexDigit c).isSome) = [] then none
  else some ((s.takeWhile fun c => (parseHexDigit c).isSome).foldl
    (fun acc c => 16 * acc + (parseHexDigit c).getD 0) 0)

/-- `src/unnamed/part_000` line 898 (identical at line 535).
`hex_to_dec(hex)` is `parseInt(hex, 16)`: trim leading whitespace, accept
an optional sign, an optional `0x`/`0X`, then the longest run of
hexadecimal digits; `NaN` is modelled as `none`. -/
def hex_to_dec (s : List Char) : Option ℤ :=
  let t := s.dropWhile Char.isWhitespace
  if t.head? = some '-' then (parseHexNat (strip0x (t.drop 1))).map fun n => -(n : ℤ)
  else if t.head? = some '+' then (parseHexNat (strip0x (t.drop 1))).map fun n => (n : ℤ)
  else (parseHexNat (strip0x t)).map fun n => (n : ℤ)

/-- `src/unnamed/part_000` lines 922-923: the 62-character alphabet of
`random_string`. -/
def characters : List Char :=
  "ABCDEFGHIJKLMNOPQRSTUVWXYZabcdefghijklmnopqrstuvwxyz0123456789".toList

/-- `src/unnamed/part_000` lines 920-926 (identical at lines 557-563).
`random_string(len)` appends `random_from_array(characters)` to the result
`len` times; `draws i` is the `Math.random()` value of iteration `i`.
If the indexed read ever yielded `undefined`, the JavaScript `+=` would
append the text `"undefined"`; with draws in `[0, 1)` that never
happens. -/
def random_string (draws : ℕ → ℚ) : ℕ → List Char
  | 0 => []
  | len + 1 =>
    random_string draws len ++
      match V3.random_from_array (draws len) characters with
      | some c => [c]
      | none => "undefined".toList

section ClaimC6

/-- C6: round trip between linear indices and row-major coordinates: for
every positive `width` and every index `i < width * h`,
`index_from_xy (xy_from_index i width).x (xy_from_index i width).y width`
returns `i`; in particular this holds for `width = 12` and all
`i < 48`. -/
theorem xy_index_round_trip (i width h : ℕ) (hw : 0 < width) (hi : i < width * h) :
    index_from_xy (xy_from_index i width).x (xy_from_index i width).y width = i ∧
      (∀ j : ℕ, j < 48 →
        index_from_xy (xy_from_index j 12).x (xy_from_index j 12).y 12 = j) := by
  constructor
  · simpa [index_from_xy, xy_from_index] using Nat.mod_add_div i width
  · decide

/-- C6 witness: the round trip at `i = 25`, `width = 12`, `h = 4`. -/
theorem xy_index_round_trip_witness :
    index_from_xy (xy_from_index 25 12).x (xy_from_index 25 12).y 12 = 25 ∧
      (∀ j : ℕ, j < 48 →
        index_from_xy (xy_from_index j 12).x (xy_from_index j 12).y 12 = j) :=
  xy_index_round_trip 25 12 4 (by decide) (by decide)

end ClaimC6

section ClaimC1

/-- C1 counterexample: at the implementation cited from lines 584-597,
`poly_ease_in(1, 2)` evaluates to `2`, not to the claimed boundary value
`1`. -/
theorem poly_ease_in_v2_boundary_counterexample :
    V2.poly_ease_in 1 2 ≠ 1 := by
  norm_num [V2.poly_ease_in]

/-- C1 amended: for the final implementations
(`poly_ease_in(x, n) = x ** n`, `poly_ease_out(x, n) = 1 - (1 - x) ** n`,
lines 946-959) and every degree `n ≥ 1`, the boundary conditions
`ease(0) = 0` and `ease(1) = 1` hold for both curves, and moreover
`poly_ease_in(0, 2) = 0`, `poly_ease_in(1, 2) = 1` and
`poly_ease_out(0.5, 2) = 0.75`. -/
theorem poly_ease_boundary_amended (n : ℕ) (hn : 1 ≤ n) :
    V3.poly_ease_in 0 n = 0 ∧ V3.poly_ease_in 1 n = 1 ∧
      V3.poly_ease_out 0 n = 0 ∧ V3.poly_ease_out 1 n = 1 ∧
      V3.poly_ease_in 0 2 = 0 ∧ V3.poly_ease_in 1 2 = 1 ∧
      V3.poly_ease_out (1 / 2) 2 = 3 / 4 := by
  refine ⟨?_, ?_, ?_, ?_, ?_, ?_, ?_⟩ <;>
    simp [V3.poly_ease_in, V3.poly_ease_out, zero_pow (by omega : n ≠ 0)] <;>
    norm_num

/-- C1 amended, witness at degree `n = 2`. -/
theorem poly_ease_boundary_amended_witness :
    V3.poly_ease_in 0 2 = 0 ∧ V3.poly_ease_in 1 2 = 1 ∧
      V3.poly_ease_out 0 2 = 0 ∧ V3.poly_ease_out 1 2 = 1 ∧
      V3.poly_ease_in 0 2 = 0 ∧ V3.poly_ease_in 1 2 = 1 ∧
      V3.poly_ease_out (1 / 2) 2 = 3 / 4 :=
  poly_ease_boundary_amended 2 (by norm_num)

end ClaimC1

section ClaimC8

/-- C8: argument-count overloads of `random`, in both cited copies: with a
draw `r` in `[0, 1)`, the zero-argument call lands in `[0, 1)`, the
one-argument call lands in `[0, a)` whenever `0 < a`, and the two-argument
call lands in `[a, b)` whenever `a < b`. -/
theorem random_overload_ranges (r a b : ℚ) (h0 : 0 ≤ r) (h1 : r < 1) :
    (∀ x, UtilsJs.random r none none = some x → 0 ≤ x ∧ x < 1) ∧
      (0 < a → ∀ x, UtilsJs.random r (some a) none = some x → 0 ≤ x ∧ x < a) ∧
      (a < b → ∀ x, UtilsJs.random r (some a) (some b) = some x → a ≤ x ∧ x < b) ∧
      (0 ≤ V3.random r none none ∧ V3.random r none none < 1) ∧
      (0 < a → 0 ≤ V3.random r (some a) none ∧ V3.random r (some a) none < a) ∧
      (a < b → a ≤ V3.random r (some a) (some b) ∧ V3.random r (some a) (some b) < b) := by
  refine ⟨?_, ?_, ?_, ?_, ?_, ?_⟩
  · intro x hx
    simp only [UtilsJs.random, Option.some.injEq] at hx
    subst hx
    constructor <;> nlinarith
  · intro ha x hx
    simp only [UtilsJs.random, Option.some.injEq] at hx
    subst hx
    constructor <;> nlinarith
  · intro hab x hx
    simp only [UtilsJs.random, Option.some.injEq] at hx
    subst hx
    constructor <;> nlinarith
  · simp only [V3.random]
    constructor <;> nlinarith
  · intro ha
    simp only [V3.random]
    constructor <;> nlinarith
  · intro hab
    simp only [V3.random]
    constructor <;> nlinarith

/-- C8 witness at `r = 1/2`, `a = 2`, `b = 3`. -/
theorem random_overload_ranges_witness :
    (∀ x, UtilsJs.random (1 / 2) none none = some x → 0 ≤ x ∧ x < 1) ∧
      (0 < (2 : ℚ) → ∀ x, UtilsJs.random (1 / 2) (some 2) none = some x → 0 ≤ x ∧ x < 2) ∧
      ((2 : ℚ) < 3 → ∀ x, UtilsJs.random (1 / 2) (some 2) (some 3) = some x → 2 ≤ x ∧ x < 3) ∧
      (0 ≤ V3.random (1 / 2) none none ∧ V3.random (1 / 2) none none < 1) ∧
      (0 < (2 : ℚ) → 0 ≤ V3.random (1 / 2) (some 2) none ∧ V3.random (1 / 2) (some 2) none < 2) ∧
      ((2 : ℚ) < 3 → 2 ≤ V3.random (1 / 2) (some 2) (some 3) ∧
        V3.random (1 / 2) (some 2) (some 3) < 3) :=
  random_overload_ranges (1 / 2) 2 3 (by norm_num) (by norm_num)

end ClaimC8

section ClaimC9

/-- C9: with the default skew `0`, on any call whose first normalized
Box-Muller draw `gs 0 / 10 + 1/2` lies inside `[0, 1]`, `random_normal`
returns exactly `max`, for every `min` and `max`: the draw raised to the
power `0` is `1`, stretched by `max - min` and offset by `min`. -/
theorem random_normal_skew_zero_max (minv maxv : ℚ) (gs : ℕ → ℚ) (fuel : ℕ)
    (h0 : 0 ≤ gs 0 / 10 + 1 / 2) (h1 : gs 0 / 10 + 1 / 2 ≤ 1) (hf : 1 ≤ fuel) :
    random_normal minv maxv 0 gs 0 fuel = some maxv := by
  obtain ⟨f, rfl⟩ : ∃ f, fuel = f + 1 := ⟨fuel - 1, by omega⟩
  simp only [random_normal]
  rw [if_neg (by push_neg; constructor <;> linarith)]
  norm_num

/-- C9 witness: a zero Box-Muller draw normalizes to `1/2`, inside
`[0, 1]`, and the call returns `max = 7` for `min = 3`. -/
theorem random_normal_skew_zero_max_witness :
    random_normal 3 7 0 (fun _ => 0) 0 1 = some 7 :=
  random_normal_skew_zero_max 3 7 (fun _ => 0) 1 (by norm_num) (by norm_num) (by norm_num)

end ClaimC9

section ClaimC5

theorem wrapSub_le (maxv w : ℚ) (hw : 0 < w) (v : ℚ) (hv : v ≤ maxv) :
    wrapSub maxv w hw v ≤ maxv := by
  rw [wrapSub.eq_def, if_neg (by linarith)]
  exact hv

theorem wrapSub_le_of_gt (maxv w : ℚ) (hw : 0 < w) (v : ℚ) :
    wrapSub maxv w hw v ≤ maxv := by
  induction v using wrapSub.induct maxv w hw with
  | case1 v hv ih =>
    rw [wrapSub.eq_def, if_pos hv]
    exact ih
  | case2 v hv =>
    rw [wrapSub.eq_def, if_neg hv]
    linarith

theorem wrapSub_mul (maxv w : ℚ) (hw : 0 < w) (v : ℚ) :
    ∃ k : ℤ, wrapSub maxv w hw v = v + k * w := by
  induction v using wrapSub.induct maxv w hw with
  | case1 v hv ih =>
    rw [wrapSub.eq_def, if_pos hv]
    obtain ⟨k, hk⟩ := ih
    exact ⟨k - 1, by rw [hk]; push_cast; ring⟩
  | case2 v hv =>
    exact ⟨0, by rw [wrapSub.eq_def, if_neg hv]; push_cast; ring⟩

theorem wrapAdd_ge (minv w : ℚ) (hw : 0 < w) (v : ℚ) :
    minv ≤ wrapAdd minv w hw v := by
  induction v using wrapAdd.induct minv w hw with
  | case1 v hv ih =>
    rw [wrapAdd.eq_def, if_pos hv]
    exact ih
  | case2 v hv =>
    rw [wrapAdd.eq_def, if_neg hv]
    linarith

theorem wrapAdd_le (minv w : ℚ) (hw : 0 < w) (v : ℚ) (hv : v ≤ minv + w) :
    wrapAdd minv w hw v ≤ minv + w := by
  induction v using wrapAdd.induct minv w hw with
  | case1 v hlt ih =>
    rw [wrapAdd.eq_def, if_pos hlt]
    exact ih (by linarith)
  | case2 v hlt =>
    rwa [wrapAdd.eq_def, if_neg hlt]

theorem wrapAdd_mul (minv w : ℚ) (hw : 0 < w) (v : ℚ) :
    ∃ k : ℤ, wrapAdd minv w hw v = v + k * w := by
  induction v using wrapAdd.induct minv w hw with
  | case1 v hv ih =>
    rw [wrapAdd.eq_def, if_pos hv]
    obtain ⟨k, hk⟩ := ih
    exact ⟨k + 1, by rw [hk]; push_cast; ring⟩
  | case2 v hv =>
    exact ⟨0, by rw [wrapAdd.eq_def, if_neg hv]; push_cast; ring⟩

theorem wrap_example_65 (h : (0 : ℚ) < 60) : wrap 65 0 60 h = 5 := by
  rw [wrap]
  rw [wrapSub.eq_def, if_pos (by norm_num)]
  rw [show (65 : ℚ) - (60 - 0) = 5 by norm_num]
  rw [wrapSub.eq_def, if_neg (by norm_num)]
  rw [wrapAdd.eq_def, if_neg (by norm_num)]

theorem wrap_example_neg5 (h : (0 : ℚ) < 60) : wrap (-5) 0 60 h = 55 := by
  rw [wrap]
  rw [wrapSub.eq_def, if_neg (by norm_num)]
  rw [wrapAdd.eq_def, if_pos (by norm_num)]
  rw [show (-5 : ℚ) + (60 - 0) = 55 by norm_num]
  rw [wrapAdd.eq_def, if_neg (by norm_num)]

/-- C5: for every value and every interval with `min_val < max_val`, `wrap`
terminates (it is a total function of the embedding) and returns a result
inside `[min_val, max_val]` that differs from the input by an integer
multiple of the width `max_val - min_val`, and `wrap(65, 0, 60) = 5`,
`wrap(-5, 0, 60) = 55`. -/
theorem wrap_in_interval_mod_width (v minv maxv : ℚ) (h : minv < maxv) :
    (minv ≤ wrap v minv maxv h ∧ wrap v minv maxv h ≤ maxv) ∧
      (∃ k : ℤ, wrap v minv maxv h = v + k * (maxv - minv)) ∧
      wrap 65 0 60 (by norm_num) = 5 ∧ wrap (-5) 0 60 (by norm_num) = 55 := by
  have hw : 0 < maxv - minv := sub_pos.mpr h
  refine ⟨⟨?_, ?_⟩, ?_, wrap_example_65 (by norm_num), wrap_example_neg5 (by norm_num)⟩
  · exact wrapAdd_ge minv (maxv - minv) hw _
  · have h1 : wrapSub maxv (maxv - minv) hw v ≤ maxv := wrapSub_le_of_gt _ _ _ _
    have h2 := wrapAdd_le minv (maxv - minv) hw (wrapSub maxv (maxv - minv) hw v)
      (by linarith [h1])
    calc wrap v minv maxv h ≤ minv + (maxv - minv) := h2
    _ = maxv := by ring
  · obtain ⟨k1, hk1⟩ := wrapSub_mul maxv (maxv - minv) hw v
    obtain ⟨k2, hk2⟩ := wrapAdd_mul minv (maxv - minv) hw (wrapSub maxv (maxv - minv) hw v)
    refine ⟨k1 + k2, ?_⟩
    rw [wrap, hk2, hk1]
    push_cast
    ring

/-- C5 witness at `v = 65`, `min_val = 0`, `max_val = 60`. -/
theorem wrap_in_interval_mod_width_witness :
    ((0 : ℚ) ≤ wrap 65 0 60 (by norm_num) ∧ wrap 65 0 60 (by norm_num) ≤ 60) ∧
      (∃ k : ℤ, wrap 65 0 60 (by norm_num) = 65 + k * (60 - 0)) ∧
      wrap 65 0 60 (by norm_num) = 5 ∧ wrap (-5) 0 60 (by norm_num) = 55 :=
  wrap_in_interval_mod_width 65 0 60 (by norm_num)

end ClaimC5


section ClaimC2

theorem swapL_perm {α : Type} [DecidableEq α] (l : List α) (i j : ℕ) :
    (swapL l i j).Perm l := by
  unfold swapL
  split
  next a b hi hj =>
    obtain ⟨hil, hia⟩ := List.getElem?_eq_some_iff.mp hi
    obtain ⟨hjl, hjb⟩ := List.getElem?_eq_some_iff.mp hj
    rw [List.perm_iff_count]
    intro c
    have hjl2 : j < (l.set i b).length := by simpa using hjl
    have hset_j : (l.set i b)[j] = b := by
      by_cases hij : i = j
      · subst hij
        rw [List.getElem_set_self]
      · rw [List.getElem_set_ne hij]
        exact hjb
    have h1 := List.count_set a c (l.set i b) j hjl2
    have h2 := List.count_set b c l i hil
    simp only [hset_j] at h1
    simp only [hia] at h2
    have hmem : a ∈ l := hia ▸ List.getElem_mem hil
    have h1e : List.count c ((l.set i b).set j a)
        = (List.count c (l.set i b) - (if b = c then 1 else 0)) + (if a = c then 1 else 0) := by
      simpa using h1
    have h2e : List.count c (l.set i b)
        = (List.count c l - (if a = c then 1 else 0)) + (if b = c then 1 else 0) := by
      simpa using h2
    rw [h1e, h2e]
    have h1le : a = c → 1 ≤ List.count c l := by
      rintro rfl
      exact List.count_pos_iff.mpr hmem
    by_cases hac : a = c
    · have hle := h1le hac
      simp only [if_pos hac]
      by_cases hbc : b = c
      · simp only [if_pos hbc]
        omega
      · simp only [if_neg hbc]
        omega
    · simp only [if_neg hac]
      by_cases hbc : b = c
      · simp only [if_pos hbc]
        omega
      · simp only [if_neg hbc]
        omega
  next => exact List.Perm.refl l

theorem shuffleLoop_perm {α : Type} [DecidableEq α] (draws : ℕ → ℚ) (n : ℕ) (l : List α) :
    (UtilsJs.shuffleLoop draws n l).Perm l := by
  induction n generalizing l with
  | zero => exact List.Perm.refl l
  | succ i ih =>
    rw [UtilsJs.shuffleLoop]
    exact (ih _).trans (swapL_perm l (i + 1) _)

/-- C2: for every array and every choice of the internal `Math.random()`
draws, the Fisher-Yates `shuffle_array` of `src/utils.js` turns the
argument array into a permutation of its original elements (the multiset
after the call equals the multiset before), and the sort-based
`shuffle_array` of the final part_000 variant leaves the argument array
unchanged, so its multiset is preserved as well. -/
theorem shuffle_array_preserves_multiset {α : Type} [DecidableEq α]
    (draws : ℕ → ℚ) (l : List α) (hd : ∀ i, 0 ≤ draws i ∧ draws i < 1) :
    ((UtilsJs.shuffle_array draws l : List α) : Multiset α) = (l : Multiset α) ∧
      ((V3.shuffle_array draws l : List α) : Multiset α) = (l : Multiset α) := by
  constructor
  · rw [Multiset.coe_eq_coe]
    exact shuffleLoop_perm draws (l.length - 1) l
  · rfl

/-- C2 witness: draws constantly `0`, array `[1, 2, 3]`. -/
theorem shuffle_array_preserves_multiset_witness :
    ((UtilsJs.shuffle_array (fun _ => 0) [1, 2, 3] : List ℕ) : Multiset ℕ)
        = ([1, 2, 3] : Multiset ℕ) ∧
      ((V3.shuffle_array (fun _ => 0) [1, 2, 3] : List ℕ) : Multiset ℕ)
        = ([1, 2, 3] : Multiset ℕ) :=
  shuffle_array_preserves_multiset (fun _ => 0) [1, 2, 3]
    (fun _ => ⟨le_rfl, by norm_num⟩)

end ClaimC2

section ClaimC3

/-- C3: evidence for the off-by-one in `src/utils.js`: on a two-element
array, `random_from_array` reads index `Math.floor(r * (length - 1))
= Math.floor(r * 1) = 0` for every draw `r` in `[0, 1)`, so it always
returns the first element and can never return the last one — against the
specified uniform choice over all `length` positions (each with
probability `1 / length`). -/
theorem random_from_array_utils_never_last (x y : ℕ) (r : ℚ)
    (h0 : 0 ≤ r) (h1 : r < 1) :
    UtilsJs.random_from_array r [x, y] = some x := by
  have hfl : ⌊r⌋ = 0 := Int.floor_eq_zero_iff.mpr ⟨h0, h1⟩
  simp only [UtilsJs.random_from_array, UtilsJs.random_int, List.length_cons,
    List.length_nil]
  norm_num
  rw [hfl]
  simp [jsGetNum]

/-- C3 witness: at the failing input `[7, 9]` with draw `0`, the utils.js
`random_from_array` returns the first element. -/
theorem random_from_array_utils_never_last_witness :
    UtilsJs.random_from_array 0 [7, 9] = some 7 :=
  random_from_array_utils_never_last 7 9 0 le_rfl (by norm_num)

end ClaimC3

section ClaimC4

theorem jsGetNum_nil {α : Type} (q : ℚ) : jsGetNum ([] : List α) q = none := by
  unfold jsGetNum
  split <;> simp

theorem jsGetInt_nil {α : Type} (i : ℤ) : jsGetInt ([] : List α) i = none := by
  unfold jsGetInt
  split <;> simp

/-- C4 counterexample: called on the empty array (draw `0`),
`random_from_array` returns the JavaScript `undefined` value (`none`) as an
ordinary result — no `EmptyInputError` or any other error exists anywhere
in the code. -/
theorem random_from_array_empty_counterexample :
    V3.random_from_array 0 ([] : List ℕ) = none := by
  unfold V3.random_from_array
  exact jsGetInt_nil _

/-- C4 amended: on empty input the functions do not fail: for every draw,
both `random_from_array` versions silently return `undefined` (`none`) on
an empty array, and the shuffle functions return the empty array or the
empty string unchanged.  The `EmptyInputError` of the specification is a
requirement stated for reimplementations only, not a behavior of this
code. -/
theorem empty_input_silent_amended (r : ℚ) (h0 : 0 ≤ r) (h1 : r < 1)
    (draws : ℕ → ℚ) :
    V3.random_from_array r ([] : List ℕ) = none ∧
      UtilsJs.random_from_array r ([] : List ℕ) = none ∧
      UtilsJs.shuffle_array draws ([] : List ℕ) = [] ∧
      V3.shuffle_array draws ([] : List ℕ) = [] ∧
      V3.shuffle_string draws [] = [] := by
  refine ⟨?_, ?_, rfl, rfl, ?_⟩
  · unfold V3.random_from_array
    exact jsGetInt_nil _
  · simp only [UtilsJs.random_from_array, UtilsJs.random_int, List.length_nil]
    exact jsGetNum_nil _
  · simp [V3.shuffle_string]

/-- C4 amended, witness at draw `0`. -/
theorem empty_input_silent_amended_witness :
    V3.random_from_array 0 ([] : List ℕ) = none ∧
      UtilsJs.random_from_array 0 ([] : List ℕ) = none ∧
      UtilsJs.shuffle_array (fun _ => 0) ([] : List ℕ) = [] ∧
      V3.shuffle_array (fun _ => 0) ([] : List ℕ) = [] ∧
      V3.shuffle_string (fun _ => 0) [] = [] :=
  empty_input_silent_amended 0 le_rfl (by norm_num) (fun _ => 0)

end ClaimC4

section ClaimC10

theorem random_from_array_characters (r : ℚ) (h0 : 0 ≤ r) (h1 : r < 1) :
    ∃ c, V3.random_from_array r characters = some c ∧ c ∈ characters := by
  have hnn : (0 : ℤ) ≤ ⌊r * (characters.length : ℚ)⌋ := by
    apply Int.floor_nonneg.mpr
    positivity
  have hlt : ⌊r * (characters.length : ℚ)⌋ < 62 := by
    apply Int.floor_lt.mpr
    have hlen : (characters.length : ℚ) = 62 := by norm_num [characters]
    rw [hlen]
    push_cast
    nlinarith
  have hidx : (⌊r * (characters.length : ℚ)⌋).toNat < characters.length := by
    have hlen : characters.length = 62 := by decide
    omega
  refine ⟨characters.get ⟨(⌊r * (characters.length : ℚ)⌋).toNat, hidx⟩, ?_, ?_⟩
  · unfold V3.random_from_array jsGetInt
    rw [if_pos hnn]
    exact List.get?_eq_get hidx
  · exact List.get_mem _ _ _

/-- C10: for every length and every choice of draws in `[0, 1)`,
`random_string(len)` returns a string of length exactly `len` whose every
character belongs to the 62-character alphabet `A-Z`, `a-z`, `0-9`. -/
theorem random_string_length_alphabet (draws : ℕ → ℚ) (len : ℕ)
    (hd : ∀ i, 0 ≤ draws i ∧ draws i < 1) :
    (random_string draws len).length = len ∧
      (∀ c ∈ random_string draws len, c ∈ characters) ∧
      characters.length = 62 := by
  have main : (random_string draws len).length = len ∧
      ∀ c ∈ random_string draws len, c ∈ characters := by
    induction len with
    | zero => simp [random_string]
    | succ n ih =>
      obtain ⟨c, hc, hmem⟩ := random_from_array_characters (draws n) (hd n).1 (hd n).2
      rw [random_string, hc]
      constructor
      · simp [ih.1]
      · intro d hd2
        rcases List.mem_append.mp hd2 with h | h
        · exact ih.2 d h
        · rw [List.mem_singleton.mp h]
          exact hmem
  exact ⟨main.1, main.2, by decide⟩

/-- C10 witness: draws constantly `0`, length `5`. -/
theorem random_string_length_alphabet_witness :
    (random_string (fun _ => 0) 5).length = 5 ∧
      (∀ c ∈ random_string (fun _ => 0) 5, c ∈ characters) ∧
      characters.length = 62 :=
  random_string_length_alphabet (fun _ => 0) 5 (fun _ => ⟨le_rfl, by norm_num⟩)

end ClaimC10

section ClaimC7

theorem hexDigit_parse_upper : ∀ d, d < 16 →
    parseHexDigit (Char.toUpper (hexDigitChar d)) = some d := by decide

theorem goodCh_facts : ∀ d, d < 16 →
    (parseHexDigit (Char.toUpper (hexDigitChar d))).isSome = true ∧
    (Char.toUpper (hexDigitChar d)).isWhitespace = false ∧
    Char.toUpper (hexDigitChar d) ≠ '-' ∧
    Char.toUpper (hexDigitChar d) ≠ '+' ∧
    Char.toUpper (hexDigitChar d) ≠ 'x' ∧
    Char.toUpper (hexDigitChar d) ≠ 'X' := by decide

theorem toHexDigits_lt {n : ℕ} (h : n < 16) : toHexDigits n = [hexDigitChar n] := by
  rw [toHexDigits.eq_def, if_pos h]

theorem toHexDigits_ge {n : ℕ} (h : ¬n < 16) :
    toHexDigits n = toHexDigits (n / 16) ++ [hexDigitChar (n % 16)] := by
  rw [toHexDigits.eq_def, if_neg h]


theorem toHexDigits_ne_nil (n : ℕ) : toHexDigits n ≠ [] := by
  by_cases h : n < 16
  · rw [toHexDigits_lt h]
    simp
  · rw [toHexDigits_ge h]
    simp

theorem toHexDigits_mem (n : ℕ) :
    ∀ c ∈ toHexDigits n, ∃ d, d < 16 ∧ c = hexDigitChar d := by
  induction n using toHexDigits.induct with
  | case1 n h =>
    rw [toHexDigits_lt h]
    intro c hc
    rw [List.mem_singleton.mp hc]
    exact ⟨n, h, rfl⟩
  | case2 n h ih =>
    rw [toHexDigits_ge h]
    intro c hc
    rcases List.mem_append.mp hc with h2 | h2
    · exact ih c h2
    · rw [List.mem_singleton.mp h2]
      exact ⟨n % 16, Nat.mod_lt _ (by norm_num), rfl⟩

theorem foldl_toHexDigits (n : ℕ) : ∀ acc : ℕ,
    ((toHexDigits n).map Char.toUpper).foldl
        (fun acc c => 16 * acc + (parseHexDigit c).getD 0) acc
      = acc * 16 ^ (toHexDigits n).length + n := by
  induction n using toHexDigits.induct with
  | case1 n h =>
    intro acc
    rw [toHexDigits_lt h]
    simp only [List.map_cons, List.map_nil, List.foldl_cons, List.foldl_nil,
      List.length_cons, List.length_nil]
    rw [hexDigit_parse_upper n h]
    simp
    ring
  | case2 n h ih =>
    intro acc
    rw [toHexDigits_ge h]
    rw [List.map_append, List.foldl_append]
    rw [ih acc]
    simp only [List.map_cons, List.map_nil, List.foldl_cons, List.foldl_nil,
      List.length_append, List.length_cons, List.length_nil]
    rw [hexDigit_parse_upper (n % 16) (Nat.mod_lt _ (by norm_num))]
    have hdm : 16 * (n / 16) + n % 16 = n := Nat.div_add_mod n 16
    simp only [Option.getD_some]
    calc 16 * (acc * 16 ^ (toHexDigits (n / 16)).length + n / 16) + n % 16
        = acc * (16 ^ (toHexDigits (n / 16)).length * 16)
            + (16 * (n / 16) + n % 16) := by ring
      _ = acc * 16 ^ ((toHexDigits (n / 16)).length + 1) + n := by
          rw [pow_succ, hdm]

theorem foldl_replicate_zero (k : ℕ) :
    (List.replicate k '0').foldl (fun acc c => 16 * acc + (parseHexDigit c).getD 0) 0 = 0 := by
  induction k with
  | zero => rfl
  | succ m ih =>
    rw [List.replicate_succ, List.foldl_cons]
    have h0 : (16 * 0 + (parseHexDigit '0').getD 0) = 0 := by decide
    rw [h0]
    exact ih

theorem parseHexNat_padded (n k : ℕ) :
    parseHexNat (List.replicate k '0' ++ (toHexDigits n).map Char.toUpper) = some n := by
  have hall : ∀ c ∈ List.replicate k '0' ++ (toHexDigits n).map Char.toUpper,
      (parseHexDigit c).isSome = true := by
    intro c hc
    rcases List.mem_append.mp hc with h | h
    · rw [List.eq_of_mem_replicate h]
      decide
    · obtain ⟨c0, hc0, rfl⟩ := List.mem_map.mp h
      obtain ⟨d, hd, rfl⟩ := toHexDigits_mem n c0 hc0
      exact (goodCh_facts d hd).1
  unfold parseHexNat
  rw [List.takeWhile_eq_self_iff.mpr hall]
  rw [if_neg (by
    intro hcon
    rcases List.append_eq_nil.mp hcon with ⟨h1, h2⟩
    exact toHexDigits_ne_nil n (List.map_eq_nil_iff.mp h2))]
  rw [List.foldl_append]
  rw [foldl_replicate_zero, foldl_toHexDigits n 0]
  simp

theorem padded_mem (n k : ℕ) :
    ∀ c ∈ List.replicate k '0' ++ (toHexDigits n).map Char.toUpper,
      ∃ d, d < 16 ∧ c = Char.toUpper (hexDigitChar d) := by
  intro c hc
  rcases List.mem_append.mp hc with h | h
  · rw [List.eq_of_mem_replicate h]
    exact ⟨0, by norm_num, by decide⟩
  · obtain ⟨c0, hc0, rfl⟩ := List.mem_map.mp h
    obtain ⟨d, hd, rfl⟩ := toHexDigits_mem n c0 hc0
    exact ⟨d, hd, rfl⟩

theorem strip0x_padded (n k : ℕ) :
    strip0x (List.replicate k '0' ++ (toHexDigits n).map Char.toUpper)
      = List.replicate k '0' ++ (toHexDigits n).map Char.toUpper := by
  unfold strip0x
  rw [if_neg]
  rintro (h | h)
  · have hx : 'x' ∈ (List.replicate k '0' ++ (toHexDigits n).map Char.toUpper).take 2 := by
      rw [h]
      simp
    obtain ⟨d, hd, hdx⟩ := padded_mem n k 'x' (List.mem_of_mem_take hx)
    exact ((goodCh_facts d hd).2.2.2.2.1 hdx.symm).elim
  · have hx : 'X' ∈ (List.replicate k '0' ++ (toHexDigits n).map Char.toUpper).take 2 := by
      rw [h]
      simp
    obtain ⟨d, hd, hdx⟩ := padded_mem n k 'X' (List.mem_of_mem_take hx)
    exact ((goodCh_facts d hd).2.2.2.2.2 hdx.symm).elim

theorem padded_ne_nil (n k : ℕ) :
    List.replicate k '0' ++ (toHexDigits n).map Char.toUpper ≠ [] := by
  intro hcon
  rcases List.append_eq_nil.mp hcon with ⟨h1, h2⟩
  exact toHexDigits_ne_nil n (List.map_eq_nil_iff.mp h2)

theorem dropWhile_ws_padded (n k : ℕ) :
    (List.replicate k '0' ++ (toHexDigits n).map Char.toUpper).dropWhile Char.isWhitespace
      = List.replicate k '0' ++ (toHexDigits n).map Char.toUpper := by
  obtain ⟨h0, t, ht⟩ := List.exists_cons_of_ne_nil (padded_ne_nil n k)
  obtain ⟨d, hd, hdc⟩ := padded_mem n k h0 (by rw [ht]; exact List.mem_cons_self _ _)
  rw [ht, List.dropWhile_cons]
  rw [hdc, (goodCh_facts d hd).2.1]
  simp

theorem head_padded_ne (n k : ℕ) (c : Char)
    (hc : ∀ d, d < 16 → Char.toUpper (hexDigitChar d) ≠ c) :
    ¬ (List.replicate k '0' ++ (toHexDigits n).map Char.toUpper).head? = some c := by
  intro hcon
  obtain ⟨h0, t, ht⟩ := List.exists_cons_of_ne_nil (padded_ne_nil n k)
  rw [ht] at hcon
  simp only [List.head?_cons, Option.some.injEq] at hcon
  obtain ⟨d, hd, hdc⟩ := padded_mem n k h0 (by rw [ht]; exact List.mem_cons_self _ _)
  exact hc d hd (by rw [← hdc, hcon])

theorem hexDigit_upper_ne_minus : ∀ d, d < 16 → Char.toUpper (hexDigitChar d) ≠ '-' := by
  decide

theorem hexDigit_upper_ne_plus : ∀ d, d < 16 → Char.toUpper (hexDigitChar d) ≠ '+' := by
  decide

theorem hex_to_dec_padded (n k : ℕ) :
    hex_to_dec (List.replicate k '0' ++ (toHexDigits n).map Char.toUpper) = some (n : ℤ) := by
  unfold hex_to_dec
  rw [dropWhile_ws_padded n k]
  rw [if_neg (head_padded_ne n k '-' hexDigit_upper_ne_minus)]
  rw [if_neg (head_padded_ne n k '+' hexDigit_upper_ne_plus)]
  rw [strip0x_padded n k, parseHexNat_padded n k]
  rfl

theorem hex_to_dec_dec_to_hex (n padding : ℕ) (pfx : Bool) :
    hex_to_dec (dec_to_hex n padding pfx) = some (n : ℤ) := by
  cases pfx with
  | false => exact hex_to_dec_padded n _
  | true =>
    show hex_to_dec ('0' :: 'x' ::
      (List.replicate (padding - ((toHexDigits n).map Char.toUpper).length) '0'
        ++ (toHexDigits n).map Char.toUpper)) = some (n : ℤ)
    generalize hQ : List.replicate
        (padding - ((toHexDigits n).map Char.toUpper).length) '0'
      ++ (toHexDigits n).map Char.toUpper = Q
    have hparse : parseHexNat Q = some n := by
      rw [← hQ]
      exact parseHexNat_padded n _
    unfold hex_to_dec
    have hws : Char.isWhitespace '0' = false := by decide
    rw [List.dropWhile_cons, hws]
    simp only [Bool.false_eq_true, if_false]
    simp only [List.head?_cons]
    rw [if_neg (by decide), if_neg (by decide)]
    have hstrip : strip0x ('0' :: 'x' :: Q) = Q := by
      unfold strip0x
      rw [if_pos (Or.inl (by simp))]
      simp
    rw [hstrip, hparse]
    rfl

/-- C7: `dec_to_hex` and `hex_to_dec` form a round trip on valid inputs:
for every nonnegative integer `n` and every padding and `0x`-prefix
option, `hex_to_dec(dec_to_hex(n, padding, prefix)) = n`; in particular
`dec_to_hex(232) = "E8"`, `hex_to_dec("E8") = 232` and
`dec_to_hex(12, 2) = "0C"`. -/
theorem dec_hex_round_trip (n padding : ℕ) (pfx : Bool) :
    hex_to_dec (dec_to_hex n padding pfx) = some (n : ℤ) ∧
      dec_to_hex 232 = ['E', '8'] ∧
      hex_to_dec ['E', '8'] = some 232 ∧
      dec_to_hex 12 2 = ['0', 'C'] := by
  refine ⟨hex_to_dec_dec_to_hex n padding pfx, ?_, by decide, ?_⟩
  · have h232 : toHexDigits 232 = ['e', '8'] := by
      rw [toHexDigits_ge (by norm_num)]
      norm_num
      rw [toHexDigits_lt (by norm_num)]
      decide
    simp [dec_to_hex, h232]
  · have h12 : toHexDigits 12 = ['c'] := by
      rw [toHexDigits_lt (by norm_num)]
      decide
    simp [dec_to_hex, h12]

end ClaimC7
